import Mathlib

/-!
# Verification of the dynamo-api pagination layer

Shallow embedding of the cursor-based pagination scheme of
`src/lambda_function.py` (handler `get_items_v1`) and the item-update
handler `update_item` (`src/app.py` / `src/lambda_function.py`), together
with proofs of the specification's claims about them.

Conventions:
* Python byte strings are `List Nat` (each entry < 256).
* Python `str` values are Lean `String` / `List Char`.
* A DynamoDB resume key (`LastEvaluatedKey` / `ExclusiveStartKey`) is an
  ordered association list `List (String × String)`: the table's primary
  key is the string attribute `id`, so resume keys are string-keyed,
  string-valued JSON objects.  This is the fragment of JSON values the
  pagination code actually exchanges; `json.dumps` / `json.loads` are
  embedded on that fragment.
* Fallible Python code (`try`/`except`) is embedded with `Except`.
-/

/-! ## Characters and JSON string escaping (`json.dumps`, ensure_ascii) -/

/-- Lower-case hexadecimal digit for a value `< 16`, as produced by Python's
`json` module in `\uXXXX` escapes. -/
def hexDigit (n : Nat) : Char :=
  if n < 10 then Char.ofNat (48 + n) else Char.ofNat (87 + n)

/-- Four-digit lower-case hex rendering of `n < 0x10000`. -/
def hex4 (n : Nat) : List Char :=
  [hexDigit (n / 4096 % 16), hexDigit (n / 256 % 16),
   hexDigit (n / 16 % 16), hexDigit (n % 16)]

/-- Embedding of the per-character escaping performed by Python's
`json.dumps` with its default `ensure_ascii=True`: `"` and `\` get
backslash escapes, the control characters with shorthand escapes use them,
other characters below `0x20` and at-or-above `0x7F` become `\uXXXX`
(a surrogate pair for astral code points), and printable ASCII is literal. -/
def escChar (c : Char) : List Char :=
  if c = '"' then ['\\', '"']
  else if c = '\\' then ['\\', '\\']
  else if c = Char.ofNat 8 then ['\\', 'b']
  else if c = Char.ofNat 9 then ['\\', 't']
  else if c = Char.ofNat 10 then ['\\', 'n']
  else if c = Char.ofNat 12 then ['\\', 'f']
  else if c = Char.ofNat 13 then ['\\', 'r']
  else if c.toNat < 0x20 then '\\' :: 'u' :: hex4 c.toNat
  else if c.toNat < 0x7F then [c]
  else if c.toNat < 0x10000 then '\\' :: 'u' :: hex4 c.toNat
  else
    ('\\' :: 'u' :: hex4 (0xD800 + (c.toNat - 0x10000) / 0x400)) ++
    ('\\' :: 'u' :: hex4 (0xDC00 + (c.toNat - 0x10000) % 0x400))

/-- JSON rendering of a Python `str`: quote, escaped body, quote. -/
def dumpStr (s : String) : List Char :=
  '"' :: (s.data.flatMap escChar ++ ['"'])

/-- A resume key: the string-keyed, string-valued JSON object DynamoDB
returns as `LastEvaluatedKey` for a table whose primary key is the string
attribute `id` (insertion-ordered, like a Python `dict`). -/
abbrev ResumeKey : Type := List (String × String)

/-- Members of a JSON object as `json.dumps` prints them: Python's default
separators are `", "` between members and `": "` after a key. -/
def dumpMembers : List (String × String) → List Char
  | [] => []
  | [(k, v)] => dumpStr k ++ ':' :: ' ' :: dumpStr v
  | (k, v) :: m :: rest =>
      dumpStr k ++ ':' :: ' ' :: dumpStr v ++ ',' :: ' ' :: dumpMembers (m :: rest)

/-- Embedding of `json.dumps` on the resume-key fragment:
`{"k1": "v1", "k2": "v2"}`. -/
def jsonDumps (k : ResumeKey) : List Char :=
  '{' :: dumpMembers k ++ ['}']

/-! ## JSON parsing (`json.loads`) on the resume-key fragment -/

/-- JSON insignificant whitespace. -/
def isJsonWs (c : Char) : Bool :=
  c = ' ' ∨ c = Char.ofNat 9 ∨ c = Char.ofNat 10 ∨ c = Char.ofNat 13

/-- Skip insignificant whitespace. -/
def skipWs (l : List Char) : List Char :=
  l.dropWhile isJsonWs

/-- The single-character string escapes accepted by `json.loads`. -/
def unescapeChar (c : Char) : Option Char :=
  if c = '"' then some '"'
  else if c = '\\' then some '\\'
  else if c = '/' then some '/'
  else if c = 'b' then some (Char.ofNat 8)
  else if c = 't' then some (Char.ofNat 9)
  else if c = 'n' then some (Char.ofNat 10)
  else if c = 'f' then some (Char.ofNat 12)
  else if c = 'r' then some (Char.ofNat 13)
  else none

/-- Value of one hexadecimal digit, upper or lower case. -/
def hexVal (c : Char) : Option Nat :=
  if 48 ≤ c.toNat ∧ c.toNat ≤ 57 then some (c.toNat - 48)
  else if 97 ≤ c.toNat ∧ c.toNat ≤ 102 then some (c.toNat - 87)
  else if 65 ≤ c.toNat ∧ c.toNat ≤ 70 then some (c.toNat - 55)
  else none

/-- Value of a four-hex-digit escape payload. -/
def hexVal4 (h1 h2 h3 h4 : Char) : Option Nat := do
  let a ← hexVal h1
  let b ← hexVal h2
  let c ← hexVal h3
  let d ← hexVal h4
  some (a * 4096 + b * 256 + c * 16 + d)

/-- A `\uXXXX` escape payload (input after the `\u`), as `json.loads`
reads it: four hex digits, with a high surrogate requiring an immediately
following `\uXXXX` low surrogate, the pair combining into one code point.
Deviation from CPython: a *lone* surrogate escape, which Python keeps as a
lone surrogate `str` element, is rejected here because a Lean `Char`
cannot hold it; no claim depends on lone surrogates. -/
def parseUEscape (l : List Char) : Option (Char × List Char) :=
  match l with
  | h1 :: h2 :: h3 :: h4 :: rest3 =>
    match hexVal4 h1 h2 h3 h4 with
    | none => none
    | some n =>
      if 0xD800 ≤ n ∧ n < 0xDC00 then
        match rest3 with
        | e1 :: e2 :: g1 :: g2 :: g3 :: g4 :: rest4 =>
          if e1 = '\\' ∧ e2 = 'u' then
            match hexVal4 g1 g2 g3 g4 with
            | none => none
            | some m =>
              if 0xDC00 ≤ m ∧ m < 0xE000 then
                some (Char.ofNat (0x10000 + (n - 0xD800) * 0x400 + (m - 0xDC00)), rest4)
              else none
          else none
        | _ => none
      else if 0xDC00 ≤ n ∧ n < 0xE000 then none
      else some (Char.ofNat n, rest3)
  | _ => none

/-- One escape sequence (input after the backslash): a single-character
escape or a `\uXXXX` escape; anything else is rejected. -/
def parseEscape (rest : List Char) : Option (Char × List Char) :=
  match rest with
  | [] => none
  | e :: rest2 =>
    match unescapeChar e with
    | some c2 => some (c2, rest2)
    | none => if e = 'u' then parseUEscape rest2 else none

/-- Body of a JSON string after the opening quote, as `json.loads` reads
it (strict mode: raw control characters are rejected).  Returns the
decoded characters and the remaining input after the closing quote.
`fuel` bounds the number of decoded characters; every step consumes at
least one input character, so input-length fuel never runs out. -/
def parseStringBodyAux : Nat → List Char → Option (List Char × List Char)
  | 0, _ => none
  | _ + 1, [] => none
  | fuel + 1, c :: rest =>
    if c = '"' then some ([], rest)
    else if c = '\\' then
      match parseEscape rest with
      | some p => (parseStringBodyAux fuel p.2).map fun q => (p.1 :: q.1, q.2)
      | none => none
    else if c.toNat < 0x20 then none
    else (parseStringBodyAux fuel rest).map fun p => (c :: p.1, p.2)

/-- Body of a JSON string after the opening quote. -/
def parseStringBody (l : List Char) : Option (List Char × List Char) :=
  parseStringBodyAux l.length l

/-- A complete JSON string literal: opening quote then body. -/
def parseJStr (l : List Char) : Option (List Char × List Char) :=
  match l with
  | [] => none
  | c :: rest => if c = '"' then parseStringBody rest else none

/-- The member list of a nonempty JSON object, input starting at the first
member's opening quote; values are restricted to strings (the resume-key
fragment).  `fuel` bounds the number of members; each member consumes one
unit. -/
def parseMembersAux : Nat → List Char → Option (List (String × String) × List Char)
  | 0, _ => none
  | fuel + 1, l => do
    let (k, r1) ← parseJStr l
    match skipWs r1 with
    | [] => none
    | c :: r2 =>
      if c = ':' then do
        let (v, r3) ← parseJStr (skipWs r2)
        match skipWs r3 with
        | [] => none
        | c2 :: r4 =>
          if c2 = ',' then
            (parseMembersAux fuel (skipWs r4)).map fun p =>
              ((⟨k⟩, ⟨v⟩) :: p.1, p.2)
          else if c2 = '}' then
            some ([(⟨k⟩, ⟨v⟩)], r4)
          else none
      else none

/-- Embedding of `json.loads` on the resume-key fragment: a single JSON
object with string keys and string values, surrounded by optional
whitespace, and nothing after it.  Any other input is a parse error
(as is any JSON value outside the fragment, which the DynamoDB
`ExclusiveStartKey` could not accept anyway). -/
def jsonLoads (l : List Char) : Except Unit ResumeKey :=
  match skipWs l with
  | [] => .error ()
  | c :: r =>
    if c = '{' then
      match skipWs r with
      | [] => .error ()
      | c2 :: r2 =>
        if c2 = '}' then
          if skipWs r2 = [] then .ok [] else .error ()
        else
          match parseMembersAux (l.length + 1) (c2 :: r2) with
          | some (ms, rest) => if skipWs rest = [] then .ok ms else .error ()
          | none => .error ()
    else .error ()

/-! ## UTF-8 (`str.encode` / `bytes.decode`) -/

/-- UTF-8 encoding of one code point (Python `str.encode()`). -/
def utf8EncodeChar (c : Char) : List Nat :=
  let n := c.toNat
  if n < 0x80 then [n]
  else if n < 0x800 then [0xC0 + n / 64, 0x80 + n % 64]
  else if n < 0x10000 then [0xE0 + n / 4096, 0x80 + n / 64 % 64, 0x80 + n % 64]
  else [0xF0 + n / 0x40000, 0x80 + n / 4096 % 64, 0x80 + n / 64 % 64, 0x80 + n % 64]

/-- UTF-8 encoding of a string as a byte list. -/
def utf8Encode (l : List Char) : List Nat :=
  (l.map utf8EncodeChar).flatten

/-- Decode a two-byte UTF-8 sequence (leading byte `0xC2-0xDF`, one
continuation byte); rejects bad leading/continuation bytes, which also
rejects the overlong leading bytes `0xC0`/`0xC1`. -/
def utf8Two (b b2 : Nat) : Except Unit Char :=
  if (0xC2 ≤ b ∧ b ≤ 0xDF) ∧ (0x80 ≤ b2 ∧ b2 ≤ 0xBF) then
    .ok (Char.ofNat ((b - 0xC0) * 64 + (b2 - 0x80)))
  else .error ()

/-- Decode a three-byte UTF-8 sequence; rejects bad continuation bytes,
overlong encodings (`< 0x800`) and surrogates. -/
def utf8Three (b b2 b3 : Nat) : Except Unit Char :=
  let n := (b - 0xE0) * 4096 + (b2 - 0x80) * 64 + (b3 - 0x80)
  if (0x80 ≤ b2 ∧ b2 ≤ 0xBF) ∧ (0x80 ≤ b3 ∧ b3 ≤ 0xBF) ∧
      0x800 ≤ n ∧ ¬(0xD800 ≤ n ∧ n < 0xE000) then
    .ok (Char.ofNat n)
  else .error ()

/-- Decode a four-byte UTF-8 sequence (leading byte `0xF0-0xF4`); rejects
bad leading/continuation bytes, overlong encodings and code points past
`0x10FFFF`. -/
def utf8Four (b b2 b3 b4 : Nat) : Except Unit Char :=
  let n := (b - 0xF0) * 0x40000 + (b2 - 0x80) * 4096 + (b3 - 0x80) * 64 + (b4 - 0x80)
  if (b ≤ 0xF4) ∧ (0x80 ≤ b2 ∧ b2 ≤ 0xBF) ∧ (0x80 ≤ b3 ∧ b3 ≤ 0xBF) ∧
      (0x80 ≤ b4 ∧ b4 ≤ 0xBF) ∧ 0x10000 ≤ n ∧ n < 0x110000 then
    .ok (Char.ofNat n)
  else .error ()

/-- One non-ASCII UTF-8 sequence with leading byte `b` and remaining input
`rest`: decoded code point plus the bytes after the sequence.  Leading-byte
classes: `≤ 0xDF` two-byte (`0x80-0xC1` rejected inside `utf8Two`),
`≤ 0xEF` three-byte, otherwise four-byte (`> 0xF4` rejected inside
`utf8Four`); truncated sequences are errors. -/
def utf8Step (b : Nat) (rest : List Nat) : Except Unit (Char × List Nat) :=
  match rest with
  | b2 :: rest2 =>
    if b ≤ 0xDF then (utf8Two b b2).map fun c => (c, rest2)
    else
      match rest2 with
      | b3 :: rest3 =>
        if b ≤ 0xEF then (utf8Three b b2 b3).map fun c => (c, rest3)
        else
          match rest3 with
          | b4 :: rest4 => (utf8Four b b2 b3 b4).map fun c => (c, rest4)
          | [] => .error ()
      | [] => .error ()
  | [] => .error ()

/-- The decoding loop: ASCII bytes directly, everything else through
`utf8Step`; `fuel` bounds the number of decoded characters.  Every step
consumes at least one byte, so with fuel at least equal to the input
length the `0`-fuel error branch is unreachable. -/
def utf8DecodeAux : Nat → List Nat → Except Unit (List Char)
  | _, [] => .ok []
  | 0, _ :: _ => .error ()
  | fuel + 1, b :: rest =>
    if b < 0x80 then
      (utf8DecodeAux fuel rest).map fun cs => Char.ofNat b :: cs
    else
      (utf8Step b rest).bind fun p =>
        (utf8DecodeAux fuel p.2).map fun cs => p.1 :: cs

/-- UTF-8 decoding of a byte list (Python `bytes.decode()`): rejects
truncated sequences, bad continuation bytes, overlong encodings,
surrogates and out-of-range code points, as CPython does. -/
def utf8Decode (bs : List Nat) : Except Unit (List Char) :=
  utf8DecodeAux bs.length bs

/-! ## Base64 (`base64.b64encode` / `base64.b64decode`) -/

/-- The standard base64 alphabet (RFC 4648 §4), as used by
`base64.b64encode` — note `+` and `/`, not the URL-safe `-` and `_`. -/
def b64Alphabet : List Char :=
  "ABCDEFGHIJKLMNOPQRSTUVWXYZabcdefghijklmnopqrstuvwxyz0123456789+/".data

/-- Alphabet character for a sextet value `< 64`. -/
def b64CharOf (n : Nat) : Char := b64Alphabet.getD n 'A'

/-- Sextet value of an alphabet character; `none` off the alphabet. -/
def b64Index (c : Char) : Option Nat :=
  (b64Alphabet.indexOf? c)

/-- Embedding of `base64.b64encode` (then `.decode()` back to `str`):
three input bytes per four alphabet characters, `=`-padded. -/
def b64encodeList : List Nat → List Char
  | [] => []
  | [b1] => [b64CharOf (b1 / 4), b64CharOf (b1 % 4 * 16), '=', '=']
  | [b1, b2] =>
      [b64CharOf (b1 / 4), b64CharOf (b1 % 4 * 16 + b2 / 16),
       b64CharOf (b2 % 16 * 4), '=']
  | b1 :: b2 :: b3 :: rest =>
      b64CharOf (b1 / 4) :: b64CharOf (b1 % 4 * 16 + b2 / 16) ::
      b64CharOf (b2 % 16 * 4 + b3 / 64) :: b64CharOf (b3 % 64) ::
      b64encodeList rest

/-- The character `base64.b64decode` treats as padding. -/
def stdB64Char (c : Char) : Bool :=
  c ∈ b64Alphabet ∨ c = '='

/-- The decoding loop of `binascii.a2b_base64` in its non-strict mode
(what `base64.b64decode(validate=False)`, the call in `get_items_v1`,
uses), transcribed from CPython's `binascii.c`:
* `quad_pos` is the position (0-3) within the current four-character
  group, `leftchar` the pending bits of that group, `pads` the pads seen
  at the current group position, `acc` the output bytes in reverse.
* a byte outside the alphabet is skipped;
* `=` at group position 0 or 1 is skipped (without counting);
* `=` at group position 2 or 3 ends decoding successfully once
  `quad_pos + pads` reaches 4 (two pads complete a 2-character group, one
  pad a 3-character group); everything after is ignored;
* a data character resets `pads` and emits a byte at positions 1-3;
* input ending with a partial group raises `binascii.Error`
  (embedded as `.error`): `Incorrect padding` for remainders 2 and 3,
  the "1 more than a multiple of 4" error for remainder 1. -/
def b64decodeAux : List Char → Nat → Nat → Nat → List Nat → Except Unit (List Nat)
  | [], quad_pos, _, _, acc => if quad_pos = 0 then .ok acc.reverse else .error ()
  | ch :: rest, quad_pos, leftchar, pads, acc =>
    if ch = '=' then
      if 2 ≤ quad_pos ∧ 4 ≤ quad_pos + (pads + 1) then .ok acc.reverse
      else if 2 ≤ quad_pos then b64decodeAux rest quad_pos leftchar (pads + 1) acc
      else b64decodeAux rest quad_pos leftchar pads acc
    else
      match b64Index ch with
      | none => b64decodeAux rest quad_pos leftchar pads acc
      | some v =>
        if quad_pos = 0 then b64decodeAux rest 1 v 0 acc
        else if quad_pos = 1 then
          b64decodeAux rest 2 (v % 16) 0 ((leftchar * 4 + v / 16) :: acc)
        else if quad_pos = 2 then
          b64decodeAux rest 3 (v % 4) 0 ((leftchar * 16 + v / 4) :: acc)
        else b64decodeAux rest 0 0 0 ((leftchar * 64 + v) :: acc)

/-- Embedding of `base64.b64decode` with its default `validate=False`.
The Python call receives `cursor.encode()`; running the loop on the
characters directly is equivalent because the UTF-8 bytes of every
character outside the alphabet are themselves outside the alphabet (every
byte of a multi-byte sequence is `≥ 0x80`) and are skipped just as the
character is skipped here. -/
def b64decodeList (input : List Char) : Except Unit (List Nat) :=
  b64decodeAux input 0 0 0 []

/-! ## A recognizer for full JSON (`json.loads` success or failure) -/

/-- Decimal digit test, for JSON numbers. -/
def isDigit (c : Char) : Bool :=
  48 ≤ c.toNat ∧ c.toNat ≤ 57

/-- One or more decimal digits; returns the remaining input. -/
def parseDigits1 (l : List Char) : Option (List Char) :=
  match l with
  | [] => none
  | c :: rest => if isDigit c then some (rest.dropWhile isDigit) else none

/-- An expected literal (`true`, `false`, `null`, `NaN`, `Infinity`). -/
def parseLit : List Char → List Char → Option (List Char)
  | [], l => some l
  | _ :: _, [] => none
  | c :: lit, x :: xs => if x = c then parseLit lit xs else none

/-- The optional fraction and exponent of a JSON number, mirroring the
scanner's maximal-munch regex `(\.\d+)?([eE][-+]?\d+)?`: a `.` or `e`
not followed by digits is simply not consumed (Python then reports the
leftover as extra data, as this model's callers do). -/
def fracExp (l : List Char) : List Char :=
  let l1 := match l with
    | '.' :: r =>
      match parseDigits1 r with
      | some r2 => r2
      | none => '.' :: r
    | _ => l
  match l1 with
  | [] => l1
  | e :: r =>
    if e = 'e' ∨ e = 'E' then
      let r1 := match r with
        | s :: r2 => if s = '+' ∨ s = '-' then r2 else s :: r2
        | [] => r
      match parseDigits1 r1 with
      | some r2 => r2
      | none => l1
    else l1

/-- A JSON number: `-? (0 | [1-9][0-9]*) frac? exp?`. -/
def parseNumber (l : List Char) : Option (List Char) :=
  let l1 := match l with
    | '-' :: r => r
    | _ => l
  match l1 with
  | [] => none
  | c :: r =>
    if c = '0' then some (fracExp r)
    else if isDigit c then some (fracExp (r.dropWhile isDigit))
    else none

/-- One escape sequence of a JSON string, acceptance only: like
`parseEscape` but a `\uXXXX` escape is accepted for *any* four hex digits
— Python's scanner accepts lone surrogates (they only matter when the
value is built). -/
def parseEscapeSkip (rest : List Char) : Option (List Char) :=
  match rest with
  | [] => none
  | e :: rest2 =>
    match unescapeChar e with
    | some _ => some rest2
    | none =>
      if e = 'u' then
        match rest2 with
        | h1 :: h2 :: h3 :: h4 :: rest3 =>
          (hexVal4 h1 h2 h3 h4).map fun _ => rest3
        | _ => none
      else none

/-- Skip over a JSON string body (input after the opening quote),
accepting exactly what `json.loads` accepts — including lone-surrogate
`\uXXXX` escapes, which `parseStringBody` cannot represent as a value. -/
def parseStringSkipAux : Nat → List Char → Option (List Char)
  | 0, _ => none
  | _ + 1, [] => none
  | fuel + 1, c :: rest =>
    if c = '"' then some rest
    else if c = '\\' then
      match parseEscapeSkip rest with
      | some r => parseStringSkipAux fuel r
      | none => none
    else if c.toNat < 0x20 then none
    else parseStringSkipAux fuel rest

mutual

/-- Recognizer for one JSON value, faithful to Python's `json.loads`
grammar (with its default `allow_nan=True` constants).  Consumes one
value and returns the remainder; `none` is a parse error.  `fuel` bounds
the recursion; every recursive call first consumes at least one input
character, so input-length fuel is always sufficient.  (Python's scanner
additionally raises `RecursionError` on pathologically deep nesting — an
error this model does not reproduce; such inputs succeed here, so they
simply fall outside any theorem hypothesized on a decode *failure*.) -/
def parseJValue : Nat → List Char → Option (List Char)
  | 0, _ => none
  | fuel + 1, l =>
    match l with
    | [] => none
    | c :: rest =>
      if c = '"' then parseStringSkipAux (rest.length + 1) rest
      else if c = '{' then
        match skipWs rest with
        | '}' :: r2 => some r2
        | r1 => parseJMembersSkip fuel r1
      else if c = '[' then
        match skipWs rest with
        | ']' :: r2 => some r2
        | r1 => parseJItemsSkip fuel r1
      else if c = 't' then parseLit ['r', 'u', 'e'] rest
      else if c = 'f' then parseLit ['a', 'l', 's', 'e'] rest
      else if c = 'n' then parseLit ['u', 'l', 'l'] rest
      else if c = 'N' then parseLit ['a', 'N'] rest
      else if c = 'I' then parseLit ['n', 'f', 'i', 'n', 'i', 't', 'y'] rest
      else if c = '-' then
        match parseNumber (c :: rest) with
        | some r => some r
        | none => parseLit ['I', 'n', 'f', 'i', 'n', 'i', 't', 'y'] rest
      else parseNumber (c :: rest)

/-- Members of a nonempty JSON object (input at the first key's quote):
`"key" : value` pairs separated by `,`, closed by `}`. -/
def parseJMembersSkip : Nat → List Char → Option (List Char)
  | 0, _ => none
  | fuel + 1, l =>
    match l with
    | [] => none
    | c :: rest =>
      if c = '"' then
        match parseStringSkipAux (rest.length + 1) rest with
        | none => none
        | some r1 =>
          match skipWs r1 with
          | ':' :: r2 =>
            match parseJValue fuel (skipWs r2) with
            | none => none
            | some r3 =>
              match skipWs r3 with
              | ',' :: r4 => parseJMembersSkip fuel (skipWs r4)
              | '}' :: r4 => some r4
              | _ => none
          | _ => none
      else none

/-- Elements of a nonempty JSON array (input at the first element). -/
def parseJItemsSkip : Nat → List Char → Option (List Char)
  | 0, _ => none
  | fuel + 1, l =>
    match parseJValue fuel l with
    | none => none
    | some r1 =>
      match skipWs r1 with
      | ',' :: r2 => parseJItemsSkip fuel (skipWs r2)
      | ']' :: r2 => some r2
      | _ => none

end

/-- What `json.loads` made of a cursor, as far as the handler can tell:
`key k` when the value is a string-keyed, string-valued object — the only
values this model represents as a `ResumeKey`, and the only shape the
scan's `ExclusiveStartKey` accepts — and `other` when `json.loads`
succeeds with any other JSON value (the handler then passes that value to
`table.scan`, which fails inside the store client). -/
inductive ParsedCursor where
  | key (k : ResumeKey)
  | other
deriving DecidableEq, Repr

/-- Embedding of `json.loads` as the handler consumes it: the
string-object fragment is parsed into a `ResumeKey` by `jsonLoads`; any
other input accepted by the full JSON grammar is a success the model
cannot carry as a key (`other`); everything else raises
`json.JSONDecodeError` (`.error`). -/
def jsonLoadsValue (l : List Char) : Except Unit ParsedCursor :=
  match jsonLoads l with
  | .ok k => .ok (.key k)
  | .error _ =>
    match parseJValue (l.length + 1) (skipWs l) with
    | some rest => if skipWs rest = [] then .ok .other else .error ()
    | none => .error ()

/-! ## Cursor encoding and decoding (src/lambda_function.py:241-243, 254-256) -/

/-- Embedding of the token-producing expression of `get_items_v1`
(src/lambda_function.py:254-256):
`base64.b64encode(json.dumps(last_evaluated_key).encode()).decode()`. -/
def encodeCursor (k : ResumeKey) : String :=
  ⟨b64encodeList (utf8Encode (jsonDumps k))⟩

/-- Embedding of the cursor-consuming expression of `get_items_v1`
(src/lambda_function.py:241-243):
`json.loads(base64.b64decode(cursor.encode()).decode())`;
any exception along the way is the `.error` case, and a success is
classified by `jsonLoadsValue` as a resume key or some other JSON
value. -/
def decodeCursor (cursor : String) : Except Unit ParsedCursor := do
  let bytes ← b64decodeList cursor.data
  let chars ← utf8Decode bytes
  jsonLoadsValue chars

/-! ## Validity of resume keys -/

/-- A valid resume key: a key *mapping*, i.e. distinct attribute names (a
Python `dict` cannot carry duplicates; this model's association lists
can, and a duplicate-carrying list corresponds to no `LastEvaluatedKey`
the program could hold).  The strings themselves are arbitrary — Python
round-trips any of them through `ensure_ascii` escapes. -/
def validResumeKey (k : ResumeKey) : Bool :=
  (k.map Prod.fst).Nodup

/-! ## The store (DynamoDB `Items` table) -/

/-- An item of the `Items` table: the required string primary key `id`
plus arbitrary further string attributes (the table is schema-less; the
attribute payload is irrelevant to pagination). -/
structure StoredItem where
  id : String
  attrs : List (String × String)
deriving DecidableEq, Repr

/-- The `LastEvaluatedKey` / `ExclusiveStartKey` form of an item's primary
key for this table: `{"id": <id>}`. -/
def itemKey (it : StoredItem) : ResumeKey := [("id", it.id)]

/-- A `table.scan` response: the `Items` list, and `LastEvaluatedKey`
when present. -/
structure ScanResponse where
  items : List StoredItem
  lastEvaluatedKey : Option ResumeKey
deriving DecidableEq, Repr

/-- Modelled from the spec: the collaborating key-value store's
`scan(limit, after)` primitive (§6), which is not part of this repository.
The collection is a list in the store's fixed scan order; with
`ExclusiveStartKey` the scan resumes strictly after the item carrying that
key; at most `limit` items are returned; `LastEvaluatedKey` is present
exactly when more items remain past the returned page (§4.1: the store's
explicit continuation signal, absent on the final page), and carries the
primary key of the last item returned. -/
def scanModel (coll : List StoredItem) (limit : Nat) (startAfter : Option ResumeKey) :
    ScanResponse :=
  let rest := match startAfter with
    | none => coll
    | some k => (coll.dropWhile fun it => ¬(itemKey it = k)).tail
  { items := rest.take limit
    lastEvaluatedKey :=
      if limit < rest.length then (rest.take limit).getLast?.map itemKey else none }

/-! ## The handler `get_items_v1` (src/lambda_function.py:224-265) -/

/-- The response model `PaginatedResponse` (src/lambda_function.py:53-55). -/
structure PaginatedResponse where
  items : List StoredItem
  next_cursor : Option String
deriving DecidableEq, Repr

/-- FastAPI's validation of `limit: int = Query(10, ge=1, le=100)`
(src/lambda_function.py:225-227): an omitted parameter defaults to 10, an
explicit value outside `[1, 100]` is rejected by the framework with a 422
client error before the handler body runs. -/
def validateLimit (limitParam : Option Int) : Except Unit Nat :=
  match limitParam with
  | none => .ok 10
  | some n => if 1 ≤ n ∧ n ≤ 100 then .ok n.toNat else .error ()

/-- Response shaping of `get_items_v1` (src/lambda_function.py:250-259):
`items` come verbatim from the scan response, and `next_cursor` is the
encoded `LastEvaluatedKey` exactly when that field is present. -/
def shapeResponse (r : ScanResponse) : PaginatedResponse :=
  { items := r.items, next_cursor := r.lastEvaluatedKey.map encodeCursor }

/-- Embedding of the whole `GET /v1/items` operation
(src/lambda_function.py:224-265), instrumented with a flag recording
whether `table.scan` was invoked.  Results are `(status, detail)` errors
or the `PaginatedResponse`.

Control flow embedded faithfully from the source:
* FastAPI rejects an out-of-range `limit` with a 422 validation error
  before the body runs.
* `if cursor:` — `None` and the empty string are falsy, so only a
  nonempty cursor is decoded.
* A cursor that fails to decode makes the body raise
  `HTTPException(status_code=400, detail="Invalid cursor format")`
  (line 247) — but that raise happens inside the *outer* `try` of lines
  236-265, whose clauses are `except ClientError` and `except Exception`
  only.  `HTTPException` is a subclass of `Exception`, and unlike
  `get_item` (line 108) this handler has no `except HTTPException: raise`
  clause, so the 400 is caught by the catch-all and replaced by
  `HTTPException(status_code=500, detail="Internal server error")`
  (line 265).  The embedding returns that 500.
* Only when the cursor step succeeds is `table.scan(**scan_kwargs)`
  reached. -/
def getItemsV1Run (coll : List StoredItem) (limitParam : Option Int)
    (cursorParam : Option String) :
    Except (Nat × String) PaginatedResponse × Bool :=
  match validateLimit limitParam with
  | .error _ => (.error (422, "Input validation error"), false)
  | .ok limit =>
    let startAfter : Except Unit (Option ParsedCursor) :=
      match cursorParam with
      | none => .ok none
      | some c =>
        if c.isEmpty then .ok none
        else match decodeCursor c with
          | .ok pc => .ok (some pc)
          | .error _ => .error ()
    match startAfter with
    | .error _ => (.error (500, "Internal server error"), false)
    | .ok none => (.ok (shapeResponse (scanModel coll limit none)), true)
    | .ok (some (.key k)) =>
      (.ok (shapeResponse (scanModel coll limit (some k))), true)
    | .ok (some .other) =>
      -- `scan_kwargs["ExclusiveStartKey"]` carries a JSON value that is
      -- not this table's key shape; `table.scan(**scan_kwargs)` IS
      -- invoked and raises inside the store client
      -- (`ParamValidationError` for non-mappings, a `ClientError`
      -- `ValidationException` for mismatched mappings), which the
      -- handler's outer clauses turn into a 500.  The scan flag is true.
      (.error (500, "Internal server error"), true)

/-- The `GET /v1/items` operation, result only. -/
def getItemsV1 (coll : List StoredItem) (limitParam : Option Int)
    (cursorParam : Option String) : Except (Nat × String) PaginatedResponse :=
  (getItemsV1Run coll limitParam cursorParam).1

/-- Whether a `GET /v1/items` request reached `table.scan`. -/
def getItemsV1ScanInvoked (coll : List StoredItem) (limitParam : Option Int)
    (cursorParam : Option String) : Bool :=
  (getItemsV1Run coll limitParam cursorParam).2

/-! ## The handler `update_item` (src/app.py:140-149, src/lambda_function.py:172-181) -/

/-- A JSON-ish value for request-body fields (`Dict[str, Any]`); only the
string case matters to the handler, which writes the path parameter into
the `id` field. -/
inductive PyVal where
  | str (s : String)
  | num (n : Int)
  | boolean (b : Bool)
  | null
deriving DecidableEq, Repr

/-- A Python `dict` as an insertion-ordered association list. -/
abbrev PyDict : Type := List (String × PyVal)

/-- Python `d[key] = v`: overwrite in place when the key exists (keeping
its original position), append otherwise. -/
def dictSet (d : PyDict) (key : String) (v : PyVal) : PyDict :=
  match d with
  | [] => [(key, v)]
  | (k0, v0) :: rest =>
      if k0 = key then (k0, v) :: rest else (k0, v0) :: dictSet rest key v

/-- Python `d.get(key)` / `d[key]` lookup (first occurrence). -/
def dictGet (d : PyDict) (key : String) : Option PyVal :=
  match d with
  | [] => none
  | (k0, v0) :: rest => if k0 = key then some v0 else dictGet rest key

/-- Embedding of `update_item` (src/app.py:140-149 and the identical
src/lambda_function.py:172-181): `item["id"] = item_id`, then
`table.put_item(Item=item)`, then `return item`.  The first component is
the item written to the store, the second the item echoed in the
response. -/
def updateItem (item_id : String) (body : PyDict) : PyDict × PyDict :=
  let it := dictSet body "id" (.str item_id)
  (it, it)

/-! ## Repeated pagination (driving `get_items_v1` with returned cursors) -/

/-- Drive `GET /v1/items` repeatedly: call with the current cursor, then
follow `next_cursor` until a page without one, collecting the pages.
`fuel` bounds the number of calls; `none` means fuel ran out or a call
failed. -/
def runPages (coll : List StoredItem) (limitParam : Option Int) :
    Option String → Nat → Option (List (List StoredItem))
  | _, 0 => none
  | cursor, fuel + 1 =>
    match getItemsV1 coll limitParam cursor with
    | .error _ => none
    | .ok page =>
      match page.next_cursor with
      | none => some [page.items]
      | some tok => (runPages coll limitParam (some tok) fuel).map (page.items :: ·)

/-- The pages a limit-`L` traversal of `rest` should produce: chunks of
`L` in order, the last one handed out together with no continuation
signal (a single, possibly short or empty, final page). -/
def pagesAux (L : Nat) (rest : List StoredItem) : List (List StoredItem) :=
  if h : rest.length ≤ L ∨ L = 0 then [rest.take L]
  else rest.take L :: pagesAux L (rest.drop L)
termination_by rest.length
decreasing_by
  simp only [not_or] at h
  simp only [List.length_drop]
  omega

instance {ε α : Type} [DecidableEq ε] [DecidableEq α] : DecidableEq (Except ε α) := by
  intro a b
  cases a <;> cases b
  case error.error e1 e2 =>
    exact if h : e1 = e2 then .isTrue (by rw [h]) else .isFalse (by simp [h])
  case error.ok => exact .isFalse (by simp)
  case ok.error => exact .isFalse (by simp)
  case ok.ok v1 v2 =>
    exact if h : v1 = v2 then .isTrue (by rw [h]) else .isFalse (by simp [h])

/-- Modelled from the spec: the characters a token may contain so that it
needs no additional escaping in a URL query parameter — the URL-safe
base64url alphabet (RFC 4648 §5: `A-Z`, `a-z`, `0-9`, `-`, `_`) plus the
`=` padding; in particular `+` (decoded as a space by query-string
parsers) and `/` are not URL-safe. -/
def urlQuerySafeChar (c : Char) : Bool :=
  ('A' ≤ c ∧ c ≤ 'Z') ∨ ('a' ≤ c ∧ c ≤ 'z') ∨ ('0' ≤ c ∧ c ≤ '9') ∨
    c = '-' ∨ c = '_' ∨ c = '='

/-! ## Helper lemmas: handler plumbing -/

theorem scanModel_items_le (coll : List StoredItem) (limit : Nat)
    (sa : Option ResumeKey) : (scanModel coll limit sa).items.length ≤ limit := by
  simp only [scanModel, List.length_take]
  omega

theorem scanModel_items_eq_take (coll : List StoredItem) (limit : Nat)
    (sa : Option ResumeKey) :
    ∃ rest : List StoredItem, (scanModel coll limit sa).items = rest.take limit := by
  exact ⟨_, rfl⟩

theorem getItemsV1_ok_shape (coll : List StoredItem) (L : Int) (c : Option String)
    (page : PaginatedResponse) (h1 : 1 ≤ L) (h2 : L ≤ 100)
    (h : getItemsV1 coll (some L) c = .ok page) :
    ∃ sa, page = shapeResponse (scanModel coll L.toNat sa) := by
  unfold getItemsV1 getItemsV1Run validateLimit at h
  simp only [h1, h2, and_self, if_pos] at h
  rcases hsa : (match c with
      | none => (.ok none : Except Unit (Option ParsedCursor))
      | some c =>
        if c.isEmpty then .ok none
        else match decodeCursor c with
          | .ok pc => .ok (some pc)
          | .error _ => .error ()) with he | sa
  · rw [hsa] at h
    simp at h
  · rw [hsa] at h
    match sa with
    | none =>
      simp only [Except.ok.injEq] at h
      exact ⟨none, h.symm⟩
    | some (.key k) =>
      simp only [Except.ok.injEq] at h
      exact ⟨some k, h.symm⟩
    | some .other => simp at h

theorem dictGet_dictSet_self (d : PyDict) (key : String) (v : PyVal) :
    dictGet (dictSet d key v) key = some v := by
  induction d with
  | nil => simp [dictSet, dictGet]
  | cons kv rest ih =>
    by_cases h : kv.1 = key <;>
      simp [dictSet, dictGet, h, ih]

theorem dictGet_dictSet_ne (d : PyDict) (key : String) (v : PyVal) (k : String)
    (h : k ≠ key) : dictGet (dictSet d key v) k = dictGet d k := by
  induction d with
  | nil => simp [dictSet, dictGet, Ne.symm h]
  | cons kv rest ih =>
    by_cases h0 : kv.1 = key
    · subst h0
      simp [dictSet, dictGet, Ne.symm h]
    · by_cases h1 : kv.1 = k <;> simp [dictSet, dictGet, h0, h1, h, ih]

/-! ## Claim theorems: the easy handler claims -/

/-- C1: the claim says a malformed cursor fails with a 400-class client
error, never a server error.  The code violates this: on
`cursor = "not-valid-base64!!"` the decode fails (as the claim expects),
but the handler's own `HTTPException(400, "Invalid cursor format")` is
swallowed by the outer `except Exception` clause (there is no
`except HTTPException: raise` in `get_items_v1`, unlike `get_item`), so
the request actually fails with 500 "Internal server error". -/
theorem invalid_cursor_yields_500 :
    decodeCursor "not-valid-base64!!" = .error () ∧
    getItemsV1 [] none (some "not-valid-base64!!") =
      .error (500, "Internal server error") ∧
    ¬ getItemsV1 [] none (some "not-valid-base64!!") =
      .error (400, "Invalid cursor format") := by
  refine ⟨by decide, by decide, by decide⟩

/-- C3: a `next_cursor` token is emitted iff the scan response carries
`LastEvaluatedKey`; the number of items in the response plays no role. -/
theorem next_cursor_iff_lastEvaluatedKey (r : ScanResponse) :
    ((shapeResponse r).next_cursor = none ↔ r.lastEvaluatedKey = none) ∧
    ∀ its : List StoredItem,
      (shapeResponse { r with items := its }).next_cursor =
        (shapeResponse r).next_cursor := by
  constructor
  · cases h : r.lastEvaluatedKey <;> simp [shapeResponse, h]
  · intro its
    rfl

/-- C5: `limit` is constrained to `[1, 100]`: an omitted limit defaults
to 10, every in-range limit is accepted, and every out-of-range limit is
rejected with a 422 client error by the framework validation. -/
theorem limit_validated (coll : List StoredItem) (c : Option String) (n : Int) :
    getItemsV1 coll none c = getItemsV1 coll (some 10) c ∧
    (1 ≤ n ∧ n ≤ 100 → ∃ page, getItemsV1 coll (some n) none = .ok page) ∧
    (n < 1 ∨ 100 < n →
      getItemsV1 coll (some n) none = .error (422, "Input validation error")) := by
  refine ⟨?_, ?_, ?_⟩
  · have h : validateLimit (some 10) = validateLimit none := by decide
    unfold getItemsV1 getItemsV1Run
    rw [h]
  · rintro ⟨h1, h2⟩
    unfold getItemsV1 getItemsV1Run validateLimit
    simp [h1, h2]
  · intro h
    have hn : ¬(1 ≤ n ∧ n ≤ 100) := by omega
    unfold getItemsV1 getItemsV1Run validateLimit
    simp [hn]

/-- C5 witness: limit 7 is accepted, limit 101 is rejected with the 422
client error. -/
theorem limit_validated_witness :
    (∃ page, getItemsV1 [] (some 7) none = .ok page) ∧
    getItemsV1 [] (some 101) none = .error (422, "Input validation error") :=
  ⟨(limit_validated [] none 7).2.1 (by decide),
   (limit_validated [] none 101).2.2 (by decide)⟩

/-- C7: an accepted request with limit `L` returns at most `L` items, and
returns them verbatim (in order) from the store's scan response. -/
theorem page_bounded_by_limit (coll : List StoredItem) (L : Int)
    (c : Option String) (page : PaginatedResponse)
    (h1 : 1 ≤ L) (h2 : L ≤ 100)
    (h : getItemsV1 coll (some L) c = .ok page) :
    page.items.length ≤ L.toNat ∧
    ∃ sa, page.items = (scanModel coll L.toNat sa).items := by
  obtain ⟨sa, hsa⟩ := getItemsV1_ok_shape coll L c page h1 h2 h
  subst hsa
  exact ⟨scanModel_items_le coll L.toNat sa, sa, rfl⟩

/-- C7 witness at a concrete store and request. -/
theorem page_bounded_by_limit_witness :
    (shapeResponse (scanModel [⟨"a", []⟩, ⟨"b", []⟩] 1 none)).items.length ≤
        (1 : Int).toNat ∧
    ∃ sa, (shapeResponse (scanModel [⟨"a", []⟩, ⟨"b", []⟩] 1 none)).items =
        (scanModel [⟨"a", []⟩, ⟨"b", []⟩] (1 : Int).toNat sa).items :=
  page_bounded_by_limit [⟨"a", []⟩, ⟨"b", []⟩] 1 none
    (shapeResponse (scanModel [⟨"a", []⟩, ⟨"b", []⟩] 1 none))
    (by decide) (by decide) (by decide)

/-- C8: token production is a pure, deterministic function of the resume
key — `encodeCursor` takes nothing but the key (no randomness, clock or
other state appears in the source expression
`base64.b64encode(json.dumps(last_evaluated_key).encode()).decode()`),
so equal keys always yield identical tokens. -/
theorem encodeCursor_deterministic (k1 k2 : ResumeKey) (h : k1 = k2) :
    encodeCursor k1 = encodeCursor k2 := by
  rw [h]

/-- C8 witness: two encodings of the same concrete key coincide. -/
theorem encodeCursor_deterministic_witness :
    encodeCursor [("id", "a")] = encodeCursor [("id", "a")] :=
  encodeCursor_deterministic [("id", "a")] [("id", "a")] rfl

/-- C9: `update_item` forces the stored and echoed item's `id` to the path
parameter, echoes exactly what it stores, and takes every other field
unchanged from the request body. -/
theorem update_item_forces_path_id (item_id : String) (body : PyDict) :
    dictGet (updateItem item_id body).1 "id" = some (.str item_id) ∧
    (updateItem item_id body).2 = (updateItem item_id body).1 ∧
    ∀ k, k ≠ "id" → dictGet (updateItem item_id body).1 k = dictGet body k := by
  refine ⟨dictGet_dictSet_self body "id" (.str item_id), rfl, ?_⟩
  intro k hk
  exact dictGet_dictSet_ne body "id" (.str item_id) k hk

/-- C9 witness: a body carrying a different `id` is overridden by the path
parameter, and an unrelated field survives unchanged. -/
theorem update_item_forces_path_id_witness :
    dictGet (updateItem "x1" [("id", .str "other"), ("name", .str "n")]).1 "id" =
      some (.str "x1") ∧
    dictGet (updateItem "x1" [("id", .str "other"), ("name", .str "n")]).1 "name" =
      dictGet [("id", .str "other"), ("name", .str "n")] "name" :=
  ⟨(update_item_forces_path_id "x1" [("id", .str "other"), ("name", .str "n")]).1,
   (update_item_forces_path_id "x1" [("id", .str "other"), ("name", .str "n")]).2.2
     "name" (by decide)⟩

/-- C10: when a nonempty cursor fails to decode, the handler raises before
`table.scan` is reached: no store operation happens and the request ends
in an error. -/
theorem decode_failure_means_no_scan (coll : List StoredItem)
    (limitParam : Option Int) (c : String)
    (hne : c.isEmpty = false) (hdec : decodeCursor c = .error ()) :
    getItemsV1ScanInvoked coll limitParam (some c) = false ∧
    ∃ e, getItemsV1 coll limitParam (some c) = .error e := by
  unfold getItemsV1ScanInvoked getItemsV1 getItemsV1Run
  cases hv : validateLimit limitParam with
  | error e => simp
  | ok limit => simp [hne, hdec]

/-- C10 witness at the concrete malformed cursor. -/
theorem decode_failure_means_no_scan_witness :
    getItemsV1ScanInvoked [] none (some "not-valid-base64!!") = false ∧
    ∃ e, getItemsV1 [] none (some "not-valid-base64!!") = .error e :=
  decode_failure_means_no_scan [] none "not-valid-base64!!"
    (by decide) (by decide)

/-! ## Claim C4: token alphabet -/

theorem b64CharOf_mem (n : Nat) : b64CharOf n ∈ b64Alphabet := by
  by_cases h : n < 64
  · have hb : ∀ m, m < 64 → b64CharOf m ∈ b64Alphabet := by decide
    exact hb n h
  · unfold b64CharOf
    rw [List.getD_eq_default]
    · decide
    · have : b64Alphabet.length = 64 := by decide
      omega

theorem b64encode_all_std : ∀ bs : List Nat, (b64encodeList bs).all stdB64Char = true
  | [] => by simp [b64encodeList]
  | [b1] => by
      simp [b64encodeList, stdB64Char, b64CharOf_mem]
  | [b1, b2] => by
      simp [b64encodeList, stdB64Char, b64CharOf_mem]
  | b1 :: b2 :: b3 :: rest => by
      have ih := b64encode_all_std rest
      simp [b64encodeList, stdB64Char, b64CharOf_mem] at ih ⊢
      exact ih

/-- C4 counterexample: a perfectly valid resume key (string `id` made of
`>` characters) whose token, produced by the standard-alphabet
`base64.b64encode` of the source, contains `+` — a character that *does*
require escaping in a URL query parameter.  The claim as stated is
false. -/
theorem url_safety_counterexample :
    validResumeKey [("id", ">>>")] = true ∧
    encodeCursor [("id", ">>>")] = "eyJpZCI6ICI+Pj4ifQ==" ∧
    ((encodeCursor [("id", ">>>")]).data.all urlQuerySafeChar) = false := by
  refine ⟨by decide, by decide, by decide⟩

/-- C4 amended: tokens are drawn from the *standard* base64 alphabet
(RFC 4648 §4: `A-Z`, `a-z`, `0-9`, `+`, `/`) plus `=` padding — not the
URL-safe base64url variant, so `+` and `/` can occur and a token is only
URL-safe when its key's serialization happens to avoid them. -/
theorem token_chars_std_base64 (k : ResumeKey) :
    (encodeCursor k).data.all stdB64Char = true := by
  show (b64encodeList (utf8Encode (jsonDumps k))).all stdB64Char = true
  exact b64encode_all_std _

/-! ## Base64 round trip -/

theorem stdB64Char_charOf (n : Nat) : stdB64Char (b64CharOf n) = true := by
  simp [stdB64Char, b64CharOf_mem]

theorem b64CharOf_ne_pad (n : Nat) : ¬b64CharOf n = '=' := by
  have h := b64CharOf_mem n
  intro he
  rw [he] at h
  exact absurd h (by decide)

theorem b64Index_charOf (n : Nat) (h : n < 64) : b64Index (b64CharOf n) = some n := by
  have hb : ∀ m, m < 64 → b64Index (b64CharOf m) = some m := by decide
  exact hb n h

theorem b64decodeAux_nil0 (lc pads : Nat) (acc : List Nat) :
    b64decodeAux [] 0 lc pads acc = .ok acc.reverse := by
  simp [b64decodeAux]

theorem b64decodeAux_step0 {ch : Char} {v : Nat} (hne : ¬ch = '=')
    (hv : b64Index ch = some v) (rest : List Char) (lc pads : Nat) (acc : List Nat) :
    b64decodeAux (ch :: rest) 0 lc pads acc = b64decodeAux rest 1 v 0 acc := by
  simp [b64decodeAux, hne, hv]

theorem b64decodeAux_step1 {ch : Char} {v : Nat} (hne : ¬ch = '=')
    (hv : b64Index ch = some v) (rest : List Char) (lc pads : Nat) (acc : List Nat) :
    b64decodeAux (ch :: rest) 1 lc pads acc =
      b64decodeAux rest 2 (v % 16) 0 ((lc * 4 + v / 16) :: acc) := by
  simp [b64decodeAux, hne, hv]

theorem b64decodeAux_step2 {ch : Char} {v : Nat} (hne : ¬ch = '=')
    (hv : b64Index ch = some v) (rest : List Char) (lc pads : Nat) (acc : List Nat) :
    b64decodeAux (ch :: rest) 2 lc pads acc =
      b64decodeAux rest 3 (v % 4) 0 ((lc * 16 + v / 4) :: acc) := by
  simp [b64decodeAux, hne, hv]

theorem b64decodeAux_step3 {ch : Char} {v : Nat} (hne : ¬ch = '=')
    (hv : b64Index ch = some v) (rest : List Char) (lc pads : Nat) (acc : List Nat) :
    b64decodeAux (ch :: rest) 3 lc pads acc =
      b64decodeAux rest 0 0 0 ((lc * 64 + v) :: acc) := by
  simp [b64decodeAux, hne, hv]

theorem b64decodeAux_pad2_first (rest : List Char) (lc : Nat) (acc : List Nat) :
    b64decodeAux ('=' :: rest) 2 lc 0 acc = b64decodeAux rest 2 lc 1 acc := by
  simp [b64decodeAux]

theorem b64decodeAux_pad2_done (rest : List Char) (lc : Nat) (acc : List Nat) :
    b64decodeAux ('=' :: rest) 2 lc 1 acc = .ok acc.reverse := by
  simp [b64decodeAux]

theorem b64decodeAux_pad3_done (rest : List Char) (lc pads : Nat) (acc : List Nat) :
    b64decodeAux ('=' :: rest) 3 lc pads acc = .ok acc.reverse := by
  simp [b64decodeAux]
  omega

theorem b64decodeAux_encode : ∀ (bs : List Nat), (∀ b ∈ bs, b < 256) →
    ∀ acc : List Nat, b64decodeAux (b64encodeList bs) 0 0 0 acc = .ok (acc.reverse ++ bs)
  | [], _, acc => by simp [b64encodeList, b64decodeAux_nil0]
  | [b1], h, acc => by
      have hb1 : b1 < 256 := h b1 (by simp)
      have h1 : b64Index (b64CharOf (b1 / 4)) = some (b1 / 4) :=
        b64Index_charOf _ (by omega)
      have h2 : b64Index (b64CharOf (b1 % 4 * 16)) = some (b1 % 4 * 16) :=
        b64Index_charOf _ (by omega)
      simp only [b64encodeList]
      rw [b64decodeAux_step0 (b64CharOf_ne_pad _) h1,
        b64decodeAux_step1 (b64CharOf_ne_pad _) h2,
        b64decodeAux_pad2_first, b64decodeAux_pad2_done,
        show b1 / 4 * 4 + b1 % 4 * 16 / 16 = b1 from by omega]
      simp
  | [b1, b2], h, acc => by
      have hb1 : b1 < 256 := h b1 (by simp)
      have hb2 : b2 < 256 := h b2 (by simp)
      have h1 : b64Index (b64CharOf (b1 / 4)) = some (b1 / 4) :=
        b64Index_charOf _ (by omega)
      have h2 : b64Index (b64CharOf (b1 % 4 * 16 + b2 / 16)) =
          some (b1 % 4 * 16 + b2 / 16) := b64Index_charOf _ (by omega)
      have h3 : b64Index (b64CharOf (b2 % 16 * 4)) = some (b2 % 16 * 4) :=
        b64Index_charOf _ (by omega)
      simp only [b64encodeList]
      rw [b64decodeAux_step0 (b64CharOf_ne_pad _) h1,
        b64decodeAux_step1 (b64CharOf_ne_pad _) h2,
        b64decodeAux_step2 (b64CharOf_ne_pad _) h3,
        b64decodeAux_pad3_done,
        show b1 / 4 * 4 + (b1 % 4 * 16 + b2 / 16) / 16 = b1 from by omega,
        show (b1 % 4 * 16 + b2 / 16) % 16 * 16 + b2 % 16 * 4 / 4 = b2 from by omega]
      simp
  | b1 :: b2 :: b3 :: rest, h, acc => by
      have hb1 : b1 < 256 := h b1 (by simp)
      have hb2 : b2 < 256 := h b2 (by simp)
      have hb3 : b3 < 256 := h b3 (by simp)
      have h1 : b64Index (b64CharOf (b1 / 4)) = some (b1 / 4) :=
        b64Index_charOf _ (by omega)
      have h2 : b64Index (b64CharOf (b1 % 4 * 16 + b2 / 16)) =
          some (b1 % 4 * 16 + b2 / 16) := b64Index_charOf _ (by omega)
      have h3 : b64Index (b64CharOf (b2 % 16 * 4 + b3 / 64)) =
          some (b2 % 16 * 4 + b3 / 64) := b64Index_charOf _ (by omega)
      have h4 : b64Index (b64CharOf (b3 % 64)) = some (b3 % 64) :=
        b64Index_charOf _ (by omega)
      have ih := b64decodeAux_encode rest (fun b hb => h b (by simp [hb]))
      simp only [b64encodeList]
      rw [b64decodeAux_step0 (b64CharOf_ne_pad _) h1,
        b64decodeAux_step1 (b64CharOf_ne_pad _) h2,
        b64decodeAux_step2 (b64CharOf_ne_pad _) h3,
        b64decodeAux_step3 (b64CharOf_ne_pad _) h4,
        show b1 / 4 * 4 + (b1 % 4 * 16 + b2 / 16) / 16 = b1 from by omega,
        show (b1 % 4 * 16 + b2 / 16) % 16 * 16 + (b2 % 16 * 4 + b3 / 64) / 4 = b2
          from by omega,
        show (b2 % 16 * 4 + b3 / 64) % 4 * 64 + b3 % 64 = b3 from by omega,
        ih (b3 :: b2 :: b1 :: acc)]
      simp

theorem b64_roundtrip (bs : List Nat) (h : ∀ b ∈ bs, b < 256) :
    b64decodeList (b64encodeList bs) = .ok bs := by
  unfold b64decodeList
  rw [b64decodeAux_encode bs h []]
  rfl

/-! ## UTF-8 on ASCII output -/

theorem utf8Encode_cons (c : Char) (cs : List Char) :
    utf8Encode (c :: cs) = utf8EncodeChar c ++ utf8Encode cs := by
  simp [utf8Encode]

theorem utf8EncodeChar_ascii (c : Char) (h : c.toNat < 0x80) :
    utf8EncodeChar c = [c.toNat] := by
  simp [utf8EncodeChar, h]

theorem utf8Encode_ascii (l : List Char) (h : ∀ c ∈ l, c.toNat < 0x80) :
    utf8Encode l = l.map Char.toNat := by
  induction l with
  | nil => rfl
  | cons c cs ih =>
    have hc : c.toNat < 0x80 := h c (by simp)
    have ih2 := ih fun x hx => h x (by simp [hx])
    rw [utf8Encode_cons, utf8EncodeChar_ascii c hc, ih2, List.map_cons]
    rfl

theorem utf8DecodeAux_ascii : ∀ (l : List Char) (fuel : Nat),
    (∀ c ∈ l, c.toNat < 0x80) → l.length ≤ fuel →
    utf8DecodeAux fuel (l.map Char.toNat) = .ok l
  | [], fuel, _, _ => by cases fuel <;> rfl
  | c :: cs, 0, _, hf => by simp at hf
  | c :: cs, fuel + 1, h, hf => by
    have hc : c.toNat < 0x80 := h c (by simp)
    have ih := utf8DecodeAux_ascii cs fuel (fun x hx => h x (by simp [hx]))
      (by simp at hf; omega)
    simp only [List.map_cons, utf8DecodeAux, hc, if_true, ih]
    simp [Char.ofNat_toNat, Except.map]

theorem utf8Decode_ascii (l : List Char) (h : ∀ c ∈ l, c.toNat < 0x80) :
    utf8Decode (l.map Char.toNat) = .ok l := by
  unfold utf8Decode
  exact utf8DecodeAux_ascii l _ h (by simp)

/-! ## `json.dumps` output is ASCII (ensure_ascii) -/

theorem hexDigit_ascii (m : Nat) (h : m < 16) : (hexDigit m).toNat < 0x80 := by
  have hb : ∀ y, y < 16 → (hexDigit y).toNat < 0x80 := by decide
  exact hb m h

theorem hex4_ascii (n : Nat) (x : Char) (hx : x ∈ hex4 n) : x.toNat < 0x80 := by
  simp only [hex4, List.mem_cons, List.not_mem_nil, or_false] at hx
  rcases hx with h | h | h | h <;> subst h <;>
    exact hexDigit_ascii _ (Nat.mod_lt _ (by omega))

theorem escChar_ascii (c x : Char) (hx : x ∈ escChar c) : x.toNat < 0x80 := by
  unfold escChar at hx
  by_cases h1 : c = '"'
  · rw [if_pos h1] at hx
    rcases List.mem_cons.mp hx with rfl | hx
    · decide
    · rcases List.mem_cons.mp hx with rfl | hx
      · decide
      · simp at hx
  rw [if_neg h1] at hx
  by_cases h2 : c = '\\'
  · rw [if_pos h2] at hx
    rcases List.mem_cons.mp hx with rfl | hx
    · decide
    · rcases List.mem_cons.mp hx with rfl | hx
      · decide
      · simp at hx
  rw [if_neg h2] at hx
  by_cases h3 : c = Char.ofNat 8
  · rw [if_pos h3] at hx
    rcases List.mem_cons.mp hx with rfl | hx
    · decide
    · rcases List.mem_cons.mp hx with rfl | hx
      · decide
      · simp at hx
  rw [if_neg h3] at hx
  by_cases h4 : c = Char.ofNat 9
  · rw [if_pos h4] at hx
    rcases List.mem_cons.mp hx with rfl | hx
    · decide
    · rcases List.mem_cons.mp hx with rfl | hx
      · decide
      · simp at hx
  rw [if_neg h4] at hx
  by_cases h5 : c = Char.ofNat 10
  · rw [if_pos h5] at hx
    rcases List.mem_cons.mp hx with rfl | hx
    · decide
    · rcases List.mem_cons.mp hx with rfl | hx
      · decide
      · simp at hx
  rw [if_neg h5] at hx
  by_cases h6 : c = Char.ofNat 12
  · rw [if_pos h6] at hx
    rcases List.mem_cons.mp hx with rfl | hx
    · decide
    · rcases List.mem_cons.mp hx with rfl | hx
      · decide
      · simp at hx
  rw [if_neg h6] at hx
  by_cases h7 : c = Char.ofNat 13
  · rw [if_pos h7] at hx
    rcases List.mem_cons.mp hx with rfl | hx
    · decide
    · rcases List.mem_cons.mp hx with rfl | hx
      · decide
      · simp at hx
  rw [if_neg h7] at hx
  by_cases h8 : c.toNat < 0x20
  · rw [if_pos h8] at hx
    rcases List.mem_cons.mp hx with rfl | hx
    · decide
    · rcases List.mem_cons.mp hx with rfl | hx
      · decide
      · exact hex4_ascii _ _ hx
  rw [if_neg h8] at hx
  by_cases h9 : c.toNat < 0x7F
  · rw [if_pos h9] at hx
    rcases List.mem_cons.mp hx with rfl | hx
    · omega
    · simp at hx
  rw [if_neg h9] at hx
  by_cases h10 : c.toNat < 0x10000
  · rw [if_pos h10] at hx
    rcases List.mem_cons.mp hx with rfl | hx
    · decide
    · rcases List.mem_cons.mp hx with rfl | hx
      · decide
      · exact hex4_ascii _ _ hx
  rw [if_neg h10] at hx
  rcases List.mem_append.mp hx with hx | hx
  · rcases List.mem_cons.mp hx with rfl | hx
    · decide
    · rcases List.mem_cons.mp hx with rfl | hx
      · decide
      · exact hex4_ascii _ _ hx
  · rcases List.mem_cons.mp hx with rfl | hx
    · decide
    · rcases List.mem_cons.mp hx with rfl | hx
      · decide
      · exact hex4_ascii _ _ hx

theorem dumpStr_ascii (s : String) (x : Char) (hx : x ∈ dumpStr s) :
    x.toNat < 0x80 := by
  unfold dumpStr at hx
  rcases List.mem_cons.mp hx with rfl | hx
  · decide
  · rcases List.mem_append.mp hx with hx | hx
    · obtain ⟨c, _, hx⟩ := List.mem_flatMap.mp hx
      exact escChar_ascii c x hx
    · rcases List.mem_cons.mp hx with rfl | hx
      · decide
      · simp at hx

theorem dumpMembers_ascii : ∀ (ms : List (String × String)) (x : Char),
    x ∈ dumpMembers ms → x.toNat < 0x80
  | [], x, hx => by simp [dumpMembers] at hx
  | [(k, v)], x, hx => by
      unfold dumpMembers at hx
      rcases List.mem_append.mp hx with hx | hx
      · exact dumpStr_ascii k x hx
      · rcases List.mem_cons.mp hx with rfl | hx
        · decide
        · rcases List.mem_cons.mp hx with rfl | hx
          · decide
          · exact dumpStr_ascii v x hx
  | (k, v) :: m :: rest, x, hx => by
      unfold dumpMembers at hx
      rcases List.mem_append.mp hx with hx | hx
      · rcases List.mem_append.mp hx with hx | hx
        · exact dumpStr_ascii k x hx
        · rcases List.mem_cons.mp hx with rfl | hx
          · decide
          · rcases List.mem_cons.mp hx with rfl | hx
            · decide
            · exact dumpStr_ascii v x hx
      · rcases List.mem_cons.mp hx with rfl | hx
        · decide
        · rcases List.mem_cons.mp hx with rfl | hx
          · decide
          · exact dumpMembers_ascii (m :: rest) x hx

theorem jsonDumps_ascii (k : ResumeKey) (x : Char) (hx : x ∈ jsonDumps k) :
    x.toNat < 0x80 := by
  unfold jsonDumps at hx
  rcases List.mem_cons.mp hx with rfl | hx
  · decide
  · rcases List.mem_append.mp hx with hx | hx
    · exact dumpMembers_ascii k x hx
    · rcases List.mem_cons.mp hx with rfl | hx
      · decide
      · simp at hx

/-! ## Parsing inverts printing: string literals -/

theorem escChar_quote : escChar '"' = ['\\', '"'] := by decide

theorem escChar_backslash : escChar '\\' = ['\\', '\\'] := by decide

theorem escChar_len1 (c : Char) : 1 ≤ (escChar c).length := by
  unfold escChar
  repeat' split
  all_goals simp [hex4]

theorem flatMap_escChar_len (l : List Char) :
    l.length ≤ (l.flatMap escChar).length := by
  induction l with
  | nil => simp
  | cons c cs ih =>
    rw [List.flatMap_cons, List.length_append, List.length_cons]
    have h1 := escChar_len1 c
    omega

theorem char_valid_nat (c : Char) :
    c.toNat < 0xD800 ∨ (0xDFFF < c.toNat ∧ c.toNat < 0x110000) := c.valid

theorem hexVal_hexDigit : ∀ m, m < 16 → hexVal (hexDigit m) = some m := by decide

theorem hexVal4_hex4 (n : Nat) (h : n < 0x10000) :
    hexVal4 (hexDigit (n / 4096 % 16)) (hexDigit (n / 256 % 16))
      (hexDigit (n / 16 % 16)) (hexDigit (n % 16)) = some n := by
  unfold hexVal4
  rw [hexVal_hexDigit _ (by omega), hexVal_hexDigit _ (by omega),
    hexVal_hexDigit _ (by omega), hexVal_hexDigit _ (by omega)]
  simp only [Option.pure_def, Option.bind_eq_bind, Option.some_bind,
    Option.some.injEq]
  omega

theorem parseUEscape_hex4 (n : Nat) (hlt : n < 0x10000)
    (hns : n < 0xD800 ∨ 0xE000 ≤ n) (tail : List Char) :
    parseUEscape (hex4 n ++ tail) = some (Char.ofNat n, tail) := by
  unfold hex4
  simp only [List.cons_append, List.nil_append]
  simp only [parseUEscape, hexVal4_hex4 n hlt,
    if_neg (show ¬(0xD800 ≤ n ∧ n < 0xDC00) from by omega),
    if_neg (show ¬(0xDC00 ≤ n ∧ n < 0xE000) from by omega)]

theorem parseUEscape_pair_hl (hi lo : Nat) (hh : 0xD800 ≤ hi ∧ hi < 0xDC00)
    (hl : 0xDC00 ≤ lo ∧ lo < 0xE000) (tail : List Char) :
    parseUEscape (hex4 hi ++ '\\' :: 'u' :: (hex4 lo ++ tail)) =
      some (Char.ofNat (0x10000 + (hi - 0xD800) * 0x400 + (lo - 0xDC00)), tail) := by
  unfold hex4
  simp only [List.cons_append, List.nil_append]
  simp only [parseUEscape, hexVal4_hex4 hi (by omega), hexVal4_hex4 lo (by omega),
    if_pos hh, if_pos hl]
  rw [if_pos ⟨trivial, trivial⟩]

theorem parseUEscape_pair (n : Nat) (h1 : 0x10000 ≤ n) (h2 : n < 0x110000)
    (tail : List Char) :
    parseUEscape (hex4 (0xD800 + (n - 0x10000) / 0x400) ++
        '\\' :: 'u' :: (hex4 (0xDC00 + (n - 0x10000) % 0x400) ++ tail)) =
      some (Char.ofNat n, tail) := by
  rw [parseUEscape_pair_hl (0xD800 + (n - 0x10000) / 0x400)
    (0xDC00 + (n - 0x10000) % 0x400) (by omega) (by omega) tail,
    show 0x10000 + (0xD800 + (n - 0x10000) / 0x400 - 0xD800) * 0x400 +
      (0xDC00 + (n - 0x10000) % 0x400 - 0xDC00) = n from by omega]

theorem parseEscape_quote (t : List Char) : parseEscape ('"' :: t) = some ('"', t) := by
  simp [parseEscape, unescapeChar]

theorem parseEscape_backslash (t : List Char) :
    parseEscape ('\\' :: t) = some ('\\', t) := by
  simp [parseEscape, unescapeChar]

theorem parseEscape_b (t : List Char) :
    parseEscape ('b' :: t) = some (Char.ofNat 8, t) := by
  simp [parseEscape, unescapeChar]

theorem parseEscape_t (t : List Char) :
    parseEscape ('t' :: t) = some (Char.ofNat 9, t) := by
  simp [parseEscape, unescapeChar]

theorem parseEscape_n (t : List Char) :
    parseEscape ('n' :: t) = some (Char.ofNat 10, t) := by
  simp [parseEscape, unescapeChar]

theorem parseEscape_f (t : List Char) :
    parseEscape ('f' :: t) = some (Char.ofNat 12, t) := by
  simp [parseEscape, unescapeChar]

theorem parseEscape_r (t : List Char) :
    parseEscape ('r' :: t) = some (Char.ofNat 13, t) := by
  simp [parseEscape, unescapeChar]

theorem parseEscape_u (rest : List Char) :
    parseEscape ('u' :: rest) = parseUEscape rest := by
  simp [parseEscape, unescapeChar]

theorem parseStringBodyAux_backslash (fuel : Nat) (rest : List Char) :
    parseStringBodyAux (fuel + 1) ('\\' :: rest) =
      match parseEscape rest with
      | some p => (parseStringBodyAux fuel p.2).map fun q => (p.1 :: q.1, q.2)
      | none => none := by
  simp [parseStringBodyAux]

/-- One printed character re-parses to itself: decoding one step of the
string body on `escChar c` yields `c` and continues behind it — for
*every* `Char`, across all five printing regimes of `ensure_ascii`
(shorthand escapes, `\uXXXX` controls, literal printable ASCII, `\uXXXX`
BMP, surrogate pairs for astral code points). -/
theorem parseStringBodyAux_escChar (c : Char) (fuel : Nat) (tail : List Char) :
    parseStringBodyAux (fuel + 1) (escChar c ++ tail) =
      (parseStringBodyAux fuel tail).map fun p => (c :: p.1, p.2) := by
  by_cases hq : c = '"'
  · subst hq
    rw [escChar_quote]
    simp only [List.cons_append, List.nil_append, List.append_eq,
      List.singleton_append, parseStringBodyAux,
      if_neg (by decide : ¬('\\' : Char) = '"'), if_pos rfl, if_true,
      parseEscape_quote]
  by_cases hb : c = '\\'
  · subst hb
    rw [escChar_backslash]
    simp only [List.cons_append, List.nil_append, List.append_eq,
      List.singleton_append, parseStringBodyAux,
      if_neg (by decide : ¬('\\' : Char) = '"'), if_pos rfl, if_true,
      parseEscape_backslash]
  by_cases h8 : c = Char.ofNat 8
  · subst h8
    rw [show escChar (Char.ofNat 8) = ['\\', 'b'] from by decide]
    simp only [List.cons_append, List.nil_append, List.append_eq,
      List.singleton_append, parseStringBodyAux,
      if_neg (by decide : ¬('\\' : Char) = '"'), if_pos rfl, if_true,
      parseEscape_b]
  by_cases h9 : c = Char.ofNat 9
  · subst h9
    rw [show escChar (Char.ofNat 9) = ['\\', 't'] from by decide]
    simp only [List.cons_append, List.nil_append, List.append_eq,
      List.singleton_append, parseStringBodyAux,
      if_neg (by decide : ¬('\\' : Char) = '"'), if_pos rfl, if_true,
      parseEscape_t]
  by_cases h10 : c = Char.ofNat 10
  · subst h10
    rw [show escChar (Char.ofNat 10) = ['\\', 'n'] from by decide]
    simp only [List.cons_append, List.nil_append, List.append_eq,
      List.singleton_append, parseStringBodyAux,
      if_neg (by decide : ¬('\\' : Char) = '"'), if_pos rfl, if_true,
      parseEscape_n]
  by_cases h12 : c = Char.ofNat 12
  · subst h12
    rw [show escChar (Char.ofNat 12) = ['\\', 'f'] from by decide]
    simp only [List.cons_append, List.nil_append, List.append_eq,
      List.singleton_append, parseStringBodyAux,
      if_neg (by decide : ¬('\\' : Char) = '"'), if_pos rfl, if_true,
      parseEscape_f]
  by_cases h13 : c = Char.ofNat 13
  · subst h13
    rw [show escChar (Char.ofNat 13) = ['\\', 'r'] from by decide]
    simp only [List.cons_append, List.nil_append, List.append_eq,
      List.singleton_append, parseStringBodyAux,
      if_neg (by decide : ¬('\\' : Char) = '"'), if_pos rfl, if_true,
      parseEscape_r]
  by_cases hctl : c.toNat < 0x20
  · have hesc : escChar c = '\\' :: 'u' :: hex4 c.toNat := by
      unfold escChar
      rw [if_neg hq, if_neg hb, if_neg h8, if_neg h9, if_neg h10, if_neg h12,
        if_neg h13, if_pos hctl]
    rw [hesc]
    simp only [List.cons_append, List.append_eq, List.singleton_append,
      parseStringBodyAux,
      if_neg (by decide : ¬('\\' : Char) = '"'), if_pos rfl, if_true,
      parseEscape_u, parseUEscape_hex4 c.toNat (by omega) (Or.inl (by omega)) tail,
      Char.ofNat_toNat]
  by_cases hplain : c.toNat < 0x7F
  · have hesc : escChar c = [c] := by
      unfold escChar
      rw [if_neg hq, if_neg hb, if_neg h8, if_neg h9, if_neg h10, if_neg h12,
        if_neg h13, if_neg hctl, if_pos hplain]
    rw [hesc]
    simp only [List.cons_append, List.nil_append, List.append_eq,
      List.singleton_append, parseStringBodyAux,
      if_neg hq, if_neg hb, if_neg hctl]
  by_cases hbmp : c.toNat < 0x10000
  · have hns : c.toNat < 0xD800 ∨ 0xE000 ≤ c.toNat := by
      rcases char_valid_nat c with h | h
      · exact Or.inl h
      · exact Or.inr (by omega)
    have hesc : escChar c = '\\' :: 'u' :: hex4 c.toNat := by
      unfold escChar
      rw [if_neg hq, if_neg hb, if_neg h8, if_neg h9, if_neg h10, if_neg h12,
        if_neg h13, if_neg hctl, if_neg hplain, if_pos hbmp]
    rw [hesc]
    simp only [List.cons_append, List.append_eq, List.singleton_append,
      parseStringBodyAux,
      if_neg (by decide : ¬('\\' : Char) = '"'), if_pos rfl, if_true,
      parseEscape_u, parseUEscape_hex4 c.toNat hbmp hns tail,
      Char.ofNat_toNat]
  · have hv := char_valid_nat c
    have hlo : 0x10000 ≤ c.toNat := by omega
    have hhi : c.toNat < 0x110000 := by
      rcases hv with h | h
      · omega
      · exact h.2
    have hesc : escChar c =
        ('\\' :: 'u' :: hex4 (0xD800 + (c.toNat - 0x10000) / 0x400)) ++
        ('\\' :: 'u' :: hex4 (0xDC00 + (c.toNat - 0x10000) % 0x400)) := by
      unfold escChar
      rw [if_neg hq, if_neg hb, if_neg h8, if_neg h9, if_neg h10, if_neg h12,
        if_neg h13, if_neg hctl, if_neg hplain, if_neg hbmp]
    rw [hesc]
    simp only [List.cons_append, List.append_assoc, List.append_eq,
      List.singleton_append]
    rw [parseStringBodyAux_backslash, parseEscape_u]
    simp only [parseUEscape_pair c.toNat hlo hhi tail, Char.ofNat_toNat]

theorem parseStringBodyAux_esc : ∀ (l : List Char) (fuel : Nat) (rest : List Char),
    l.length + 1 ≤ fuel →
    parseStringBodyAux fuel (l.flatMap escChar ++ '"' :: rest) = some (l, rest)
  | [], fuel, rest, hf => by
      cases fuel with
      | zero => omega
      | succ f => simp [parseStringBodyAux]
  | c :: cs, fuel, rest, hf => by
      cases fuel with
      | zero => simp at hf
      | succ f =>
        have ih := parseStringBodyAux_esc cs f rest (by simp at hf; omega)
        rw [List.flatMap_cons, List.append_assoc, parseStringBodyAux_escChar c f _,
          ih]
        rfl

theorem parseStringBody_esc (l : List Char) (rest : List Char) :
    parseStringBody (l.flatMap escChar ++ '"' :: rest) = some (l, rest) := by
  unfold parseStringBody
  refine parseStringBodyAux_esc l _ rest ?_
  have := flatMap_escChar_len l
  simp only [List.length_append, List.length_cons]
  omega

theorem parseJStr_dumpStr (s : String) (rest : List Char) :
    parseJStr (dumpStr s ++ rest) = some (s.data, rest) := by
  unfold dumpStr parseJStr
  simp only [List.cons_append, if_pos rfl]
  rw [List.append_assoc, List.singleton_append]
  exact parseStringBody_esc s.data rest

/-! ## Parsing inverts printing: objects -/

theorem skipWs_cons_not (c : Char) (l : List Char) (h : isJsonWs c = false) :
    skipWs (c :: l) = c :: l := by
  simp [skipWs, List.dropWhile_cons, h]

theorem skipWs_space (l : List Char) : skipWs (' ' :: l) = skipWs l := by
  simp [skipWs, List.dropWhile_cons, isJsonWs]

theorem skipWs_dumpStr (s : String) (X : List Char) :
    skipWs (dumpStr s ++ X) = dumpStr s ++ X := by
  unfold dumpStr
  simp only [List.cons_append]
  exact skipWs_cons_not _ _ (by decide)

theorem dumpStr_len1 (s : String) : 1 ≤ (dumpStr s).length := by
  unfold dumpStr
  simp

theorem dumpMembers_len : ∀ ms : List (String × String),
    ms.length ≤ (dumpMembers ms).length
  | [] => by simp [dumpMembers]
  | [(k, v)] => by
      unfold dumpMembers
      have := dumpStr_len1 k
      simp only [List.length_append, List.length_cons, List.length_nil]
      omega
  | (k, v) :: m :: t => by
      unfold dumpMembers
      have h1 := dumpStr_len1 k
      have h2 := dumpMembers_len (m :: t)
      simp only [List.length_append, List.length_cons, List.length_nil] at *
      omega

theorem parseMembersAux_dump : ∀ (ms : List (String × String)) (fuel : Nat)
    (rest : List Char), ms ≠ [] → ms.length ≤ fuel →
    parseMembersAux fuel (dumpMembers ms ++ '}' :: rest) = some (ms, rest)
  | [], _, _, hne, _ => absurd rfl hne
  | [(k, v)], fuel, rest, _, hf => by
      cases fuel with
      | zero => simp at hf
      | succ f =>
        unfold dumpMembers
        simp only [List.append_assoc, List.cons_append]
        unfold parseMembersAux
        rw [parseJStr_dumpStr k _]
        simp only [Option.pure_def, Option.bind_eq_bind, Option.some_bind]
        rw [skipWs_cons_not ':' _ (by decide)]
        simp only [if_pos rfl, if_true]
        rw [skipWs_space, skipWs_dumpStr, parseJStr_dumpStr v _]
        simp only [Option.pure_def, Option.bind_eq_bind, Option.some_bind]
        rw [skipWs_cons_not '}' _ (by decide)]
        simp only [if_neg (by decide : ¬('}' : Char) = ','), if_pos rfl, if_true]
  | (k, v) :: m :: t, fuel, rest, _, hf => by
      cases fuel with
      | zero => simp at hf
      | succ f =>
        have ih := parseMembersAux_dump (m :: t) f rest (by simp)
          (by simp at hf ⊢; omega)
        have hsk : skipWs (dumpMembers (m :: t) ++ '}' :: rest) =
            dumpMembers (m :: t) ++ '}' :: rest := by
          cases t with
          | nil =>
            obtain ⟨k2, v2⟩ := m
            unfold dumpMembers
            rw [List.append_assoc]
            exact skipWs_dumpStr k2 _
          | cons m2 t2 =>
            obtain ⟨k2, v2⟩ := m
            unfold dumpMembers
            simp only [List.append_assoc]
            exact skipWs_dumpStr k2 _
        unfold dumpMembers
        simp only [List.append_assoc, List.cons_append]
        unfold parseMembersAux
        rw [parseJStr_dumpStr k _]
        simp only [Option.pure_def, Option.bind_eq_bind, Option.some_bind]
        rw [skipWs_cons_not ':' _ (by decide)]
        simp only [if_pos rfl, if_true]
        rw [skipWs_space, skipWs_dumpStr, parseJStr_dumpStr v _]
        simp only [Option.pure_def, Option.bind_eq_bind, Option.some_bind]
        rw [skipWs_cons_not ',' _ (by decide)]
        simp only [if_pos rfl, if_true]
        rw [skipWs_space, hsk, ih]
        rfl

theorem dumpMembers_cons_head (m : String × String) (t : List (String × String)) :
    ∃ tail, dumpMembers (m :: t) = '"' :: tail := by
  obtain ⟨k1, v1⟩ := m
  cases t with
  | nil =>
    unfold dumpMembers dumpStr
    simp only [List.cons_append]
    exact ⟨_, rfl⟩
  | cons m2 t2 =>
    unfold dumpMembers dumpStr
    simp only [List.cons_append]
    exact ⟨_, rfl⟩

theorem skipWs_dumpMembers (m : String × String) (t : List (String × String))
    (X : List Char) :
    skipWs (dumpMembers (m :: t) ++ X) = dumpMembers (m :: t) ++ X := by
  obtain ⟨tail, htail⟩ := dumpMembers_cons_head m t
  rw [htail]
  simp only [List.cons_append]
  exact skipWs_cons_not _ _ (by decide)

theorem jsonLoads_jsonDumps (k : ResumeKey) :
    jsonLoads (jsonDumps k) = .ok k := by
  cases k with
  | nil => decide
  | cons m t =>
    obtain ⟨tail, htail⟩ := dumpMembers_cons_head m t
    have h1 := dumpMembers_len (m :: t)
    have hmem := parseMembersAux_dump (m :: t)
      (('{' :: (dumpMembers (m :: t) ++ ['}'])).length + 1) []
      (by simp)
      (by
        simp only [List.length_cons, List.length_append, List.length_nil] at h1 ⊢
        omega)
    rw [htail] at hmem
    simp only [List.cons_append] at hmem
    conv_lhs => rw [jsonDumps]
    rw [htail]
    unfold jsonLoads
    simp only [List.cons_append]
    rw [skipWs_cons_not '{' _ (by decide)]
    simp only [if_pos rfl, if_true]
    rw [skipWs_cons_not '"' _ (by decide)]
    simp only [if_neg (by decide : ¬('"' : Char) = '}')]
    rw [hmem]
    simp [skipWs]

/-- The round-trip engine: decoding the token produced by encoding a
resume key yields the key again, classified as a resume key.  (The
`validResumeKey` hypothesis marks where the model is finer than Python:
an association list with duplicate attribute names prints to a JSON
object that `json.loads`, building a `dict`, would collapse — but no
`LastEvaluatedKey` carries duplicates, so such lists model no real
key.) -/
theorem decodeCursor_encodeCursor (k : ResumeKey) (_h : validResumeKey k = true) :
    decodeCursor (encodeCursor k) = .ok (.key k) := by
  have hascii : ∀ c ∈ jsonDumps k, c.toNat < 0x80 :=
    fun c hc => jsonDumps_ascii k c hc
  have hbind : ∀ {α β : Type} (a : α) (f : α → Except Unit β),
      ((Except.ok a : Except Unit α) >>= f) = f a := fun _ _ => rfl
  have e1 : utf8Encode (jsonDumps k) = (jsonDumps k).map Char.toNat :=
    utf8Encode_ascii _ hascii
  have hbytes : ∀ b ∈ (jsonDumps k).map Char.toNat, b < 256 := by
    intro b hb
    obtain ⟨c, hc, rfl⟩ := List.mem_map.mp hb
    have := hascii c hc
    omega
  have e2 : b64decodeList (b64encodeList ((jsonDumps k).map Char.toNat)) =
      .ok ((jsonDumps k).map Char.toNat) := b64_roundtrip _ hbytes
  have e3 : utf8Decode ((jsonDumps k).map Char.toNat) = .ok (jsonDumps k) :=
    utf8Decode_ascii _ hascii
  have e4 : jsonLoadsValue (jsonDumps k) = .ok (.key k) := by
    unfold jsonLoadsValue
    rw [jsonLoads_jsonDumps k]
  unfold decodeCursor encodeCursor
  rw [show (⟨b64encodeList (utf8Encode (jsonDumps k))⟩ : String).data =
    b64encodeList (utf8Encode (jsonDumps k)) from rfl]
  rw [e1, e2, hbind, e3, hbind, e4]

/-- C2: round-trip law — for every resume key `k` (a string-keyed,
string-valued mapping, i.e. distinct attribute names, the shape DynamoDB
hands back as `LastEvaluatedKey` for this table; the strings themselves
are arbitrary), decoding the token produced by encoding `k` yields `k`
again: `json.loads(b64decode(b64encode(json.dumps(k))))` is `k`. -/
theorem decode_encode_roundtrip (k : ResumeKey) (h : validResumeKey k = true) :
    decodeCursor (encodeCursor k) = .ok (.key k) :=
  decodeCursor_encodeCursor k h

/-- C2 witness: the round trip at a concrete resume key whose value mixes
an escaped quote, a backslash, a raw control character, a non-ASCII BMP
character and an astral code point — every `ensure_ascii` regime at
once. -/
theorem decode_encode_roundtrip_witness :
    decodeCursor (encodeCursor [("id", "a\"b\\c\td\u00e9😀")]) =
      .ok (.key [("id", "a\"b\\c\td\u00e9😀")]) :=
  decode_encode_roundtrip [("id", "a\"b\\c\td\u00e9😀")] (by decide)

/-! ## Pagination traversal (C6) -/

theorem b64encodeList_cons_ne_nil (b : Nat) (rest : List Nat) :
    b64encodeList (b :: rest) ≠ [] := by
  match rest with
  | [] => simp [b64encodeList]
  | [b2] => simp [b64encodeList]
  | b2 :: b3 :: r => simp [b64encodeList]

theorem encodeCursor_not_empty (k : ResumeKey) : (encodeCursor k).isEmpty = false := by
  have hdata : (encodeCursor k).data ≠ [] := by
    show b64encodeList (utf8Encode (jsonDumps k)) ≠ []
    rw [show jsonDumps k = '{' :: (dumpMembers k ++ ['}']) from by
      unfold jsonDumps; simp]
    rw [utf8Encode_cons, show utf8EncodeChar '{' = [123] from by decide]
    exact b64encodeList_cons_ne_nil 123 _
  rw [Bool.eq_false_iff]
  intro he
  rw [String.isEmpty_iff] at he
  apply hdata
  rw [he]

theorem itemKey_eq_iff (p x : StoredItem) : itemKey p = itemKey x ↔ p.id = x.id := by
  simp [itemKey]

theorem validResumeKey_itemKey (it : StoredItem) :
    validResumeKey (itemKey it) = true := by
  simp [validResumeKey, itemKey]

theorem dropWhile_itemKey : ∀ (pre : List StoredItem) (x : StoredItem)
    (post : List StoredItem), x.id ∉ pre.map StoredItem.id →
    ((pre ++ x :: post).dropWhile fun it => ¬(itemKey it = itemKey x)) = x :: post
  | [], x, post, _ => by
      simp [List.dropWhile_cons]
  | p :: pre, x, post, hx => by
      have hp : ¬p.id = x.id := by
        simp only [List.map_cons, List.mem_cons] at hx
        tauto
      have hpk : ¬itemKey p = itemKey x := fun he => hp ((itemKey_eq_iff p x).mp he)
      have ih := dropWhile_itemKey pre x post (by
        simp only [List.map_cons, List.mem_cons] at hx
        tauto)
      simp only [List.cons_append, List.dropWhile_cons]
      rw [if_pos (by simpa using hpk), ih]

theorem nodup_split (pre : List StoredItem) (x : StoredItem) (post : List StoredItem)
    (h : ((pre ++ x :: post).map StoredItem.id).Nodup) :
    x.id ∉ pre.map StoredItem.id := by
  rw [List.map_append, List.map_cons] at h
  intro hmem
  have hd := List.disjoint_of_nodup_append h
  exact hd hmem (by simp)

theorem take_getLast?_eq (post : List StoredItem) (n : Nat) (h1 : 1 ≤ n)
    (h2 : n ≤ post.length) : (post.take n).getLast? = post[n - 1]? := by
  rw [List.getLast?_eq_getElem?, List.length_take, Nat.min_eq_left h2,
    List.getElem?_take, if_pos (by omega : n - 1 < n)]

theorem scanModel_at (pre : List StoredItem) (x : StoredItem) (post : List StoredItem)
    (L : Nat) (hx : x.id ∉ pre.map StoredItem.id) :
    scanModel (pre ++ x :: post) L (some (itemKey x)) =
      { items := post.take L,
        lastEvaluatedKey := if L < post.length then (post.take L).getLast?.map itemKey
          else none } := by
  simp only [scanModel]
  rw [show ((pre ++ x :: post).dropWhile fun it => ¬(itemKey it = itemKey x)) =
    x :: post from dropWhile_itemKey pre x post hx]
  rfl

theorem getItemsV1_with_cursor (coll : List StoredItem) (L : Int) (x : StoredItem)
    (h1 : 1 ≤ L) (h2 : L ≤ 100) :
    getItemsV1 coll (some L) (some (encodeCursor (itemKey x))) =
      .ok (shapeResponse (scanModel coll L.toNat (some (itemKey x)))) := by
  unfold getItemsV1 getItemsV1Run validateLimit
  simp only [h1, h2, and_self, if_pos, encodeCursor_not_empty,
    decodeCursor_encodeCursor (itemKey x) (validResumeKey_itemKey x)]
  rfl

theorem getItemsV1_no_cursor (coll : List StoredItem) (L : Int)
    (h1 : 1 ≤ L) (h2 : L ≤ 100) :
    getItemsV1 coll (some L) none =
      .ok (shapeResponse (scanModel coll L.toNat none)) := by
  unfold getItemsV1 getItemsV1Run validateLimit
  simp only [h1, h2, and_self, if_pos]

theorem pagesAux_final (L : Nat) (rest : List StoredItem)
    (h : rest.length ≤ L ∨ L = 0) : pagesAux L rest = [rest.take L] := by
  rw [pagesAux, dif_pos h]

theorem pagesAux_step (L : Nat) (rest : List StoredItem)
    (h : ¬(rest.length ≤ L ∨ L = 0)) :
    pagesAux L rest = rest.take L :: pagesAux L (rest.drop L) := by
  rw [pagesAux, dif_neg h]

theorem runPages_tail : ∀ (fuel : Nat) (pre post : List StoredItem)
    (x : StoredItem) (L : Int), 1 ≤ L → L ≤ 100 →
    ((pre ++ x :: post).map StoredItem.id).Nodup →
    post.length < fuel →
    runPages (pre ++ x :: post) (some L) (some (encodeCursor (itemKey x))) fuel =
      some (pagesAux L.toNat post)
  | 0, _, _, _, _, _, _, _, hf => by omega
  | fuel + 1, pre, post, x, L, hL1, hL2, hnodup, hf => by
      have hxpre : x.id ∉ pre.map StoredItem.id := nodup_split pre x post hnodup
      simp only [runPages]
      rw [getItemsV1_with_cursor (pre ++ x :: post) L x hL1 hL2,
        scanModel_at pre x post L.toNat hxpre]
      simp only [shapeResponse]
      by_cases hcase : L.toNat < post.length
      · have hb : L.toNat - 1 < post.length := by omega
        rw [if_pos hcase, take_getLast?_eq post L.toNat (by omega) (by omega),
          List.getElem?_eq_getElem hb]
        simp only [Option.map_some']
        have hpost : post.take (L.toNat - 1) ++ post[L.toNat - 1] :: post.drop L.toNat
            = post := by
          conv_rhs => rw [← List.take_append_drop (L.toNat - 1) post]
          congr 1
          have hg := List.getElem_cons_drop post (L.toNat - 1) hb
          rw [show L.toNat - 1 + 1 = L.toNat from by omega] at hg
          exact hg
        have hdecomp : pre ++ x :: post =
            (pre ++ x :: post.take (L.toNat - 1)) ++
              post[L.toNat - 1] :: post.drop L.toNat := by
          conv_lhs => rw [← hpost]
          simp [List.append_assoc]
        have ih := runPages_tail fuel (pre ++ x :: post.take (L.toNat - 1))
          (post.drop L.toNat) (post.get ⟨L.toNat - 1, hb⟩) L hL1 hL2
          (hdecomp ▸ hnodup)
          (by simp only [List.length_drop]; omega)
        rw [show (post.get ⟨L.toNat - 1, hb⟩) = post[L.toNat - 1] from rfl] at ih
        rw [hdecomp, ih]
        simp only [Option.map_some']
        conv_rhs => rw [pagesAux_step L.toNat post (by omega)]
      · rw [if_neg hcase]
        simp only [Option.map_none']
        conv_rhs => rw [pagesAux_final L.toNat post (Or.inl (by omega))]

theorem runPages_start (fuel : Nat) (coll : List StoredItem) (L : Int)
    (hL1 : 1 ≤ L) (hL2 : L ≤ 100)
    (hnodup : (coll.map StoredItem.id).Nodup)
    (hf : coll.length < fuel) :
    runPages coll (some L) none fuel = some (pagesAux L.toNat coll) := by
  cases fuel with
  | zero => omega
  | succ f =>
    simp only [runPages]
    rw [getItemsV1_no_cursor coll L hL1 hL2]
    simp only [scanModel, shapeResponse]
    by_cases hcase : L.toNat < coll.length
    · have hb : L.toNat - 1 < coll.length := by omega
      rw [if_pos hcase, take_getLast?_eq coll L.toNat (by omega) (by omega)]
      rcases hget : coll[L.toNat - 1]? with _ | x2
      · rw [List.getElem?_eq_getElem hb] at hget
        simp at hget
      · simp only [Option.map_some']
        have hx2 : coll[L.toNat - 1] = x2 := by
          rw [List.getElem?_eq_getElem hb] at hget
          exact Option.some.inj hget
        have hdecomp : coll = coll.take (L.toNat - 1) ++ x2 :: coll.drop L.toNat := by
          conv_lhs => rw [← List.take_append_drop (L.toNat - 1) coll]
        
          congr 1
          have hg := List.getElem_cons_drop coll (L.toNat - 1) hb
          rw [show L.toNat - 1 + 1 = L.toNat from by omega, hx2] at hg
          exact hg.symm
        have ih := runPages_tail f (coll.take (L.toNat - 1)) (coll.drop L.toNat)
          x2 L hL1 hL2
          (hdecomp ▸ hnodup)
          (by simp only [List.length_drop]; omega)
        rw [← hdecomp] at ih
        rw [ih]
        simp only [Option.map_some']
        conv_rhs => rw [pagesAux_step L.toNat coll (by omega)]
    · rw [if_neg hcase]
      simp only [Option.map_none']
      conv_rhs => rw [pagesAux_final L.toNat coll (Or.inl (by omega))]

theorem pagesAux_flatten (n : Nat) (hn : 1 ≤ n) (rest : List StoredItem) :
    (pagesAux n rest).flatten = rest := by
  by_cases h : rest.length ≤ n ∨ n = 0
  · have hle : rest.length ≤ n := by
      rcases h with h | h
      · exact h
      · omega
    rw [pagesAux_final n rest h]
    simp [List.take_of_length_le hle]
  · rw [pagesAux_step n rest h]
    have ih := pagesAux_flatten n hn (rest.drop n)
    simp only [List.flatten_cons, ih, List.take_append_drop]
termination_by rest.length
decreasing_by
  simp only [List.length_drop]
  push_neg at h
  omega

/-- C6: starting from no cursor and repeatedly calling `GET /v1/items`
with limit `L` and the previously returned `next_cursor`, every item of
the collection is visited exactly once, in scan order, and the iteration
terminates at the first page that carries no cursor: with call budget
`|coll| + 1` the traversal completes and its pages are the consecutive
chunks of the collection (`pagesAux`), whose concatenation is exactly the
collection.  Hypotheses: the limit is in range and ids are distinct (they
are the table's primary key); the ids are otherwise arbitrary strings. -/
theorem pagination_visits_all (coll : List StoredItem) (L : Int)
    (hL1 : 1 ≤ L) (hL2 : L ≤ 100)
    (hnodup : (coll.map StoredItem.id).Nodup) :
    runPages coll (some L) none (coll.length + 1) =
      some (pagesAux L.toNat coll) ∧
    (pagesAux L.toNat coll).flatten = coll :=
  ⟨runPages_start (coll.length + 1) coll L hL1 hL2 hnodup (by omega),
   pagesAux_flatten L.toNat (by omega) coll⟩

/-- C6 witness: the spec's concrete scenario — ids `a,b,c,d,e`, limit 2 —
pages out as `[a,b]`, `[c,d]`, `[e]` and stops. -/
theorem pagination_visits_all_witness :
    (runPages [⟨"a", []⟩, ⟨"b", []⟩, ⟨"c", []⟩, ⟨"d", []⟩, ⟨"e", []⟩]
        (some 2) none 6 =
      some (pagesAux (2 : Int).toNat
        [⟨"a", []⟩, ⟨"b", []⟩, ⟨"c", []⟩, ⟨"d", []⟩, ⟨"e", []⟩]) ∧
     (pagesAux (2 : Int).toNat
        [⟨"a", []⟩, ⟨"b", []⟩, ⟨"c", []⟩, ⟨"d", []⟩, ⟨"e", []⟩]).flatten =
      [⟨"a", []⟩, ⟨"b", []⟩, ⟨"c", []⟩, ⟨"d", []⟩, ⟨"e", []⟩]) ∧
    pagesAux (2 : Int).toNat
        [⟨"a", []⟩, ⟨"b", []⟩, ⟨"c", []⟩, ⟨"d", []⟩, ⟨"e", []⟩] =
      [[⟨"a", []⟩, ⟨"b", []⟩], [⟨"c", []⟩, ⟨"d", []⟩], [⟨"e", []⟩]] := by
  constructor
  · exact pagination_visits_all
      [⟨"a", []⟩, ⟨"b", []⟩, ⟨"c", []⟩, ⟨"d", []⟩, ⟨"e", []⟩] 2
      (by decide) (by decide) (by decide)
  · rw [pagesAux_step _ _ (by decide), pagesAux_step _ _ (by decide),
      pagesAux_final _ _ (by decide)]
    rfl
